import Mathlib

/-!
# Verification of the coc.nvim extension runtime and package installer

Shallow embedding of the extension lifecycle runtime (`Extensions` in
`src/extensions.ts`) and the package installer (`Installer` in
`src/model/installer.ts`).

Modelling conventions:
* JavaScript `Map` / plain-object dictionaries become association lists
  (`alookup` / `aset` / `adel`), which have exactly the lookup-first,
  replace-in-place, append-when-absent semantics of `Map.set` and
  `obj[key] = val`.
* Promises settle on the single-threaded event loop; a settled promise is
  modelled by its outcome (`ActResult`).  The activation promise cache
  (`result`) is assigned synchronously inside `extension.activate` before
  any `await`, so any interleaving of two `activate` calls is equivalent to
  running them one after the other; single-flight is therefore stated over
  sequential composition.
* The dynamic `require` of the extension entry module
  (`createExtension(id, filename, isEmpty)` in `util/factory`) is an
  external input: it is a parameter `f : String → Option (Nat → ActResult)`
  giving, per extension id, the entry point (or `none` when the factory
  throws, which the source catches and turns into an `undefined` return).
  The entry point receives the (ghost) count of previous executions, so a
  theorem can speak about "the entry point ran again".
* Version strings are modelled in parsed form (`SemVer`, a `major.minor.patch`
  triple; prerelease tags are out of scope of every claim).
* Filesystem reads reaching an operation are parameters (symlink test,
  on-disk version, parsed manifests); filesystem writes are reified as an
  explicit `FsEffect` trace.
-/

/-- Outcome of one execution of an extension's activation entry point: the
resolved exports (identified by a token, so distinct runs can be told apart)
or the rejection message. -/
inductive ActResult where
  | ok (exports : Nat)
  | err (msg : String)
deriving DecidableEq, Repr

/-- The closure state captured by `createExtension` in `extensions.ts`
(lines 921-1029): the cached activation promise `result`, the `isActive`
flag, the cached `exports`, the `subscriptions` array and a ghost counter
of entry-point executions. -/
structure ExtCell where
  result : Option ActResult
  isActive : Bool
  exports : Option Nat
  subscriptions : List Nat
  runCount : Nat
deriving DecidableEq, Repr

/-- A freshly created extension record (state right after `createExtension`). -/
def freshCell : ExtCell :=
  { result := none, isActive := false, exports := none, subscriptions := [], runCount := 0 }

/-- Association-list lookup, first match wins (JS `Map.get` / `obj[key]`). -/
def alookup {α β : Type} [DecidableEq α] : List (α × β) → α → Option β
  | [], _ => none
  | p :: rest, k => if p.1 = k then some p.2 else alookup rest k

/-- Association-list set: replaces the first binding in place, appends when
absent (JS `Map.set` / `obj[key] = val`). -/
def aset {α β : Type} [DecidableEq α] : List (α × β) → α → β → List (α × β)
  | [], k, v => [(k, v)]
  | p :: rest, k, v => if p.1 = k then (k, v) :: rest else p :: aset rest k v

/-- Association-list delete (JS `Map.delete` / `delete obj[key]`). -/
def adel {α β : Type} [DecidableEq α] (m : List (α × β)) (k : α) : List (α × β) :=
  m.filter (fun p => p.1 ≠ k)

/-- `extension.activate` from `createExtension` (extensions.ts lines 931-973):
if the activation promise is cached, return it; otherwise run the entry point
(when the factory produced one; a factory throw is caught and yields an
`undefined` return, cell untouched) and cache the settled outcome.  On
success `isActive` and `exports` are set by the resolution handler; on
rejection they are left untouched and only the (rejected) promise is cached. -/
def extensionActivate (entry? : Option (Nat → ActResult)) (c : ExtCell) :
    Option ActResult × ExtCell :=
  match c.result with
  | some r => (some r, c)
  | none =>
    match entry? with
    | none => (none, c)
    | some entry =>
      match entry c.runCount with
      | ActResult.ok e =>
        (some (ActResult.ok e),
         { c with result := some (ActResult.ok e), isActive := true, exports := some e,
                  runCount := c.runCount + 1 })
      | ActResult.err m =>
        (some (ActResult.err m),
         { c with result := some (ActResult.err m), runCount := c.runCount + 1 })

/-- The `deactivate` closure stored with the record (extensions.ts lines
1011-1028): a no-op when not active; otherwise clears the cached promise,
the exports and the active flag and disposes all subscriptions (the
optional `ext.deactivate()` teardown has no effect on this state and its
errors are swallowed). -/
def extensionDeactivate (c : ExtCell) : ExtCell :=
  if c.isActive = false then c
  else { c with result := none, exports := none, isActive := false, subscriptions := [] }

/-- The in-memory state of the `Extensions` registry: the `extensions` map
and the persisted `disabled` id set. -/
structure Registry where
  extensions : List (String × ExtCell)
  disabled : List String
deriving DecidableEq, Repr

/-- `Extensions.isDisabled` (extensions.ts lines 504-506). -/
def Extensions.isDisabled (s : Registry) (id : String) : Bool :=
  s.disabled.contains id

/-- The result of an `async` registry method: a rejected promise (`thrown`)
or a resolved boolean. -/
inductive ActivateResult where
  | thrown (msg : String)
  | ret (b : Bool)
deriving DecidableEq, Repr

/-- `Extensions.activate` (extensions.ts lines 640-660): throws when
disabled or unregistered; returns `true` at once when already active;
otherwise awaits `extension.activate()` (a rejection propagates) and
returns whether the extension ended up active. -/
def Extensions.activate (f : String → Option (Nat → ActResult)) (s : Registry) (id : String) :
    ActivateResult × Registry :=
  if Extensions.isDisabled s id then
    (ActivateResult.thrown ("Extension " ++ id ++ " is disabled!"), s)
  else
    match alookup s.extensions id with
    | none => (ActivateResult.thrown ("Extension " ++ id ++ " not registered!"), s)
    | some c =>
      if c.isActive then (ActivateResult.ret true, s)
      else
        let pr := extensionActivate (f id) c
        let s1 : Registry := { s with extensions := aset s.extensions id pr.2 }
        match pr.1 with
        | some (ActResult.err m) => (ActivateResult.thrown m, s1)
        | _ =>
          if pr.2.isActive then (ActivateResult.ret true, s1)
          else (ActivateResult.ret false, s1)

/-- `Extensions.deactivate` (extensions.ts lines 662-667): `false` when the
id is unknown, otherwise runs the record's `deactivate` closure and
returns `true`. -/
def Extensions.deactivate (s : Registry) (id : String) : Bool × Registry :=
  match alookup s.extensions id with
  | none => (false, s)
  | some c => (true, { s with extensions := aset s.extensions id (extensionDeactivate c) })

/-- `Extensions.unloadExtension` (extensions.ts lines 1126-1133): when
registered, deactivate then remove the record. -/
def Extensions.unloadExtension (s : Registry) (id : String) : Registry :=
  match alookup s.extensions id with
  | none => s
  | some _ =>
    let s1 := (Extensions.deactivate s id).2
    { s1 with extensions := adel s1.extensions id }

/-- `Extensions.canActivate` (extensions.ts lines 1119-1121). -/
def Extensions.canActivate (s : Registry) (id : String) : Bool :=
  !(s.disabled.contains id) && (alookup s.extensions id).isSome

/-- Which path `setupActiveEvents` took: skipped (not activatable),
immediate activation, or registration of one-shot triggers for the listed
events. -/
inductive SetupAction where
  | skipped
  | immediate
  | triggers (events : List String)
deriving DecidableEq, Repr

/-- `Extensions.setupActiveEvents` (extensions.ts lines 824-916), up to the
decision taken at registration time.  `activationEvents` is `none` when the
manifest has no such field (JS `undefined`, falsy) and `some evs` for an
array — note a present-but-empty array is truthy in JS.  In the immediate
branch activation errors are caught and logged, so the state is whatever
`activate` left behind.  The trigger-registration loop (per-event one-shot
listeners) is represented by the `triggers` action; for an empty event list
the loop body never runs and the registry is untouched, which is the exact
source behaviour. -/
def Extensions.setupActiveEvents (f : String → Option (Nat → ActResult)) (s : Registry)
    (id : String) (activationEvents : Option (List String)) : SetupAction × Registry :=
  if Extensions.canActivate s id = false then (SetupAction.skipped, s)
  else if activationEvents.isNone || (activationEvents.getD []).contains "*" then
    (SetupAction.immediate, (Extensions.activate f s id).2)
  else
    (SetupAction.triggers (activationEvents.getD []), s)

/-- Semantic version, parsed form (`major.minor.patch`; prerelease tags are
outside every claim). -/
structure SemVer where
  major : Nat
  minor : Nat
  patch : Nat
deriving DecidableEq, Repr

/-- `semver.gte a b` on parsed versions. -/
def SemVer.gte (a b : SemVer) : Bool :=
  if a.major ≠ b.major then decide (a.major > b.major)
  else if a.minor ≠ b.minor then decide (a.minor > b.minor)
  else decide (a.patch ≥ b.patch)

/-- Rendering of a version, as JS string concatenation would produce. -/
def SemVer.text (v : SemVer) : String :=
  toString v.major ++ "." ++ toString v.minor ++ "." ++ toString v.patch

/-- `'>=' + info.version` stringifies `undefined` when the version is
absent, exactly as JS `+` does. -/
def versionText (v? : Option SemVer) : String :=
  match v? with
  | some v => SemVer.text v
  | none => "undefined"

/-- `required.replace(/^\^/, '>=')` from installer.ts: a leading caret
becomes `>=`. -/
def caretToGte (s : String) : String :=
  match s.data with
  | '^' :: rest => ">=" ++ String.mk rest
  | _ => s

/-- The `Info` record produced by `Installer.getInfo` (installer.ts lines
18-23): tarball URL, the `engines.coc` range when the manifest declares a
truthy one, the resolved version and the package name. -/
structure Info where
  tarball : String
  enginesCoc : Option String
  version : Option SemVer
  name : String
deriving DecidableEq, Repr

/-- One version entry of a registry response (`versions[v]`). -/
structure RegistryPkg where
  tarball : String
  enginesCoc : Option String
  version : SemVer
deriving DecidableEq, Repr

/-- A registry response: package name, `dist-tags.latest` and the version
table. -/
structure RegistryResp where
  name : String
  latest : SemVer
  versions : List (SemVer × RegistryPkg)
deriving DecidableEq, Repr

/-- The `package.json` fetched from the raw-content mirror for a github
URL install:  `name`, optional `version`, and `engines.coc` when `engines`
is present with a `coc` key. -/
structure GithubPkg where
  name : String
  version : Option SemVer
  enginesCoc : Option String
deriving DecidableEq, Repr

/-- Character-list prefix test, modelling `String.startsWith`. -/
def strStarts (p s : String) : Bool :=
  p.data.isPrefixOf s.data

/-- Last-character test, modelling `s.endsWith(c)` for a one-character
suffix. -/
def endsWithChar (s : String) (c : Char) : Bool :=
  s.data.getLast? == some c

/-- `url.replace(/\/$/, '')`: drop one trailing slash. -/
def stripTrailSlash (s : String) : String :=
  if endsWithChar s '/' then String.mk s.data.dropLast else s

/-- Split a character list at the first occurrence of `sep`; `none` when
`sep` does not occur (models `indexOf` + `substring` and the non-greedy
`^(.*?)=(.*)$` match). -/
def splitAtChar (sep : Char) : List Char → Option (List Char × List Char)
  | [] => none
  | c :: rest =>
    if c = sep then some ([], rest)
    else (splitAtChar sep rest).map (fun p => (c :: p.1, p.2))

/-- `Installer.getInfoFromUri` (installer.ts lines 300-324): only
`github.com` URLs are supported; derive the branch from an `@` suffix
(default `master`) and synthesize the archive tarball URL.  The fetched
manifest's `engines.coc` is passed through as-is — `null` when absent, with
no error. -/
def Installer.getInfoFromUri (url : String) (github : GithubPkg) : Except String Info :=
  if strStarts "https://github.com" url = false then
    Except.error ("\"" ++ url ++ "\" is not supported, coc.nvim support github.com only")
  else
    let url1 := stripTrailSlash url
    let parts :=
      match splitAtChar '@' url1.data with
      | some p => (String.mk p.1, String.mk p.2)
      | none => (url1, "master")
    Except.ok
      { tarball := parts.1 ++ "/archive/" ++ parts.2 ++ ".tar.gz",
        enginesCoc := github.enginesCoc,
        version := github.version,
        name := github.name }

/-- The registry branch of `Installer.getInfo` (installer.ts lines
273-298): resolve `latest` when no version is pinned, fail when the
requested version is absent, fail when the version's manifest does not
declare a truthy `engines.coc`. -/
def Installer.getInfoRegistry (resp : RegistryResp) (version? : Option SemVer)
    (defName : String) : Except String Info :=
  let v := version?.getD resp.latest
  match alookup resp.versions v with
  | none => Except.error (defName ++ " doesn't exists in the registry.")
  | some obj =>
    match obj.enginesCoc with
    | none =>
      Except.error
        (defName ++ " is not valid coc extension, \"engines\" field with coc property required.")
    | some req =>
      Except.ok
        { tarball := obj.tarball, enginesCoc := some req,
          version := some obj.version, name := resp.name }

/-- `Installer.getInfo` (installer.ts line 273-274): dispatch to the URL
path when the installer carries a URL, otherwise to the registry path.
`github` is the manifest the URL path would fetch, `resp` the registry
response the registry path would fetch, `version?` the version pinned in
the identifier (if any), `defName` the raw identifier (used in messages). -/
def Installer.getInfo (url? : Option String) (github : GithubPkg) (resp : RegistryResp)
    (version? : Option SemVer) (defName : String) : Except String Info :=
  match url? with
  | some url => Installer.getInfoFromUri url github
  | none => Installer.getInfoRegistry resp version? defName

/-- `getDependencies` (installer.ts lines 84-94) on the parsed
`dependencies` object: drop the host package, common bundlers and type
declarations. -/
def getDependencies (deps : List (String × String)) : List (String × String) :=
  deps.filter (fun p => (["coc.nvim", "esbuild", "webpack", "@types/node"].contains p.1) = false)

/-- The sorted-key rewrite both writers perform
(`Object.keys(obj.dependencies).sort().forEach(k => sorted[k] = obj[k])`,
installer.ts lines 247-251 and extensions.ts lines 492-495). -/
def sortDeps (deps : List (String × String)) : List (String × String) :=
  let ks := List.insertionSort (· ≤ ·) (deps.map Prod.fst)
  ks.filterMap (fun k => (alookup deps k).map (fun v => (k, v)))

/-- A filesystem write performed by `doInstall`. -/
inductive FsEffect where
  | download (url : String) (dest : String)
  | runSubprocess
  | removeTarget (p : String)
  | moveDir (src dst : String)
  | writeManifest (deps : List (String × String))
deriving DecidableEq, Repr

/-- `Installer.doInstall` (installer.ts lines 185-271).  Inputs that the
source reads from the world are parameters: `folderIsLink` (the target
lstat), `tmpFolder` (mkdtemp), `rawDeps` (the downloaded package.json's
parsed `dependencies`), `exitCode` (the secondary install subprocess),
`priorDeps` (the parsed root manifest dependencies) and `targetStat`
(whether the target exists, and if so whether it is a directory).  Returns
the source's return value (or rejection) together with the ordered trace
of filesystem writes.  A symlinked target returns `false` immediately with
no writes; a failing subprocess rejects before any manifest write; the
success path removes a prior target, moves the temp directory into place
and rewrites the root manifest with keys sorted, pinning the URL when this
install came from one, else `'>=' + version`. -/
def Installer.doInstall (root npm : String) (url? : Option String) (info : Info)
    (folderIsLink : Bool) (tmpFolder : String)
    (rawDeps : List (String × String)) (exitCode : Nat)
    (priorDeps : List (String × String)) (targetStat : Option Bool) :
    Except String Bool × List FsEffect :=
  if folderIsLink then (Except.ok false, [])
  else
    let folder := root ++ "/" ++ info.name
    let dl := [FsEffect.download info.tarball tmpFolder]
    let dependencies := getDependencies rawDeps
    if dependencies.isEmpty = false ∧ exitCode ≠ 0 then
      (Except.error (npm ++ " install exited with " ++ toString exitCode),
       dl ++ [FsEffect.runSubprocess])
    else
      let sub := if dependencies.isEmpty then [] else [FsEffect.runSubprocess]
      let pin :=
        match url? with
        | some u => u
        | none => ">=" ++ versionText info.version
      let newDeps := sortDeps (aset priorDeps info.name pin)
      let rm :=
        match targetStat with
        | some _ => [FsEffect.removeTarget folder]
        | none => []
      (Except.ok true,
       dl ++ sub ++ rm ++
         [FsEffect.moveDir tmpFolder folder, FsEffect.writeManifest newDeps])

instance {ε α : Type} [DecidableEq ε] [DecidableEq α] : DecidableEq (Except ε α) := fun x y =>
  match x, y with
  | Except.ok a, Except.ok b =>
    if h : a = b then isTrue (by rw [h])
    else isFalse (fun he => h (by cases he; rfl))
  | Except.error a, Except.error b =>
    if h : a = b then isTrue (by rw [h])
    else isFalse (fun he => h (by cases he; rfl))
  | Except.ok _, Except.error _ => isFalse (fun he => Except.noConfusion he)
  | Except.error _, Except.ok _ => isFalse (fun he => Except.noConfusion he)

/-- Result of `Installer.update`: the resolved/rejected value, and whether
`doInstall` was invoked (the only way `update` mutates the filesystem —
everything before it is a read). -/
structure UpdateResult where
  result : Except String (Option String)
  didInstall : Bool
deriving DecidableEq, Repr

/-- `Installer.update` (installer.ts lines 151-183): return `undefined` at
once when the install directory is a symbolic link; read the installed
version; resolve info (a rejection propagates); return `undefined` when the
installed version is `semver.gte` the resolved one; reject when a declared
engine range is unsatisfied; otherwise run `doInstall` (whose rejection
propagates) and return the target directory.  `sat r` models
`semver.satisfies(workspace.version, r)`; `doInstallRes` the outcome of the
`doInstall` call on the proceed path. -/
def Installer.update (root : String) (folderIsLink : Bool)
    (installedVersion : Option SemVer) (infoRes : Except String Info)
    (sat : String → Bool) (doInstallRes : Except String Bool) : UpdateResult :=
  if folderIsLink then { result := Except.ok none, didInstall := false }
  else
    match infoRes with
    | Except.error e => { result := Except.error e, didInstall := false }
    | Except.ok info =>
      let upToDate :=
        match installedVersion, info.version with
        | some v, some latest => SemVer.gte v latest
        | _, _ => false
      if upToDate then { result := Except.ok none, didInstall := false }
      else
        let required :=
          match info.enginesCoc with
          | some r => caretToGte r
          | none => ""
        if required ≠ "" ∧ sat required = false then
          { result := Except.error
              (versionText info.version ++ " requires coc.nvim " ++ required ++
                ", please update coc.nvim."),
            didInstall := false }
        else
          match doInstallRes with
          | Except.error e => { result := Except.error e, didInstall := true }
          | Except.ok _ =>
            { result := Except.ok (some (root ++ "/" ++ info.name)), didInstall := true }

/-- `Extensions.uninstallExtension` (extensions.ts lines 474-502): ids not
present in the root manifest are reported and skipped; each remaining id is
unloaded, its manifest entry deleted and its directory removed; finally the
manifest is rewritten with keys sorted.  An empty id list returns at once
without writing. -/
def Extensions.uninstallExtension (s : Registry) (manifest : List (String × String))
    (ids : List String) : Registry × List (String × String) :=
  if ids.isEmpty then (s, manifest)
  else
    let keys := manifest.map Prod.fst
    let globals := ids.filter (fun id => keys.contains id)
    let s1 := globals.foldl (fun r id => Extensions.unloadExtension r id) s
    let deps := globals.foldl (fun d id => adel d id) manifest
    (s1, sortDeps deps)

/-- Combined state for the frame property over the root dependency
manifest. -/
structure SystemState where
  registry : Registry
  manifest : List (String × String)
deriving DecidableEq, Repr

/-- The embedded operations, with the external inputs each one reads. -/
inductive Op where
  | activateOp (id : String)
  | deactivateOp (id : String)
  | setupOp (id : String) (evs : Option (List String))
  | doInstallOp (url? : Option String) (info : Info) (link : Bool) (tmp : String)
      (rawDeps : List (String × String)) (exitCode : Nat) (targetStat : Option Bool)
  | uninstallOp (ids : List String)

/-- Does the operation belong to install/uninstall (the manifest writers of
the specification)? -/
def manifestWriter : Op → Bool
  | Op.doInstallOp .. => true
  | Op.uninstallOp _ => true
  | _ => false

/-- Fold a filesystem-effect trace over the manifest: only
`writeManifest` changes it. -/
def applyWrites (m : List (String × String)) : List FsEffect → List (String × String)
  | [] => m
  | FsEffect.writeManifest d :: rest => applyWrites d rest
  | _ :: rest => applyWrites m rest

/-- One step of the combined system: registry operations act on the
registry; `doInstall` and `uninstall` are the only operations whose traces
can touch the root dependency manifest. -/
def step (f : String → Option (Nat → ActResult)) (root npm : String)
    (st : SystemState) : Op → SystemState
  | Op.activateOp id => { st with registry := (Extensions.activate f st.registry id).2 }
  | Op.deactivateOp id => { st with registry := (Extensions.deactivate st.registry id).2 }
  | Op.setupOp id evs =>
      { st with registry := (Extensions.setupActiveEvents f st.registry id evs).2 }
  | Op.doInstallOp url? info link tmp rawDeps exitCode targetStat =>
      let r :=
        Installer.doInstall root npm url? info link tmp rawDeps exitCode st.manifest targetStat
      { st with manifest := applyWrites st.manifest r.2 }
  | Op.uninstallOp ids =>
      let r := Extensions.uninstallExtension st.registry st.manifest ids
      { registry := r.1, manifest := r.2 }

/-- Observed active flag of an id in the registry. -/
def isActiveAt (s : Registry) (id : String) : Bool :=
  match alookup s.extensions id with
  | some c => c.isActive
  | none => false

/-- Ghost count of entry-point executions for an id (0 when unknown). -/
def runCountAt (s : Registry) (id : String) : Nat :=
  match alookup s.extensions id with
  | some c => c.runCount
  | none => 0

/-- Cached exports of an id. -/
def exportsAt (s : Registry) (id : String) : Option Nat :=
  match alookup s.extensions id with
  | some c => c.exports
  | none => none

/-- Cached activation promise of an id. -/
def resultAt (s : Registry) (id : String) : Option ActResult :=
  match alookup s.extensions id with
  | some c => c.result
  | none => none

/-- Split the `.npmrc` content on `/\r?\n/` (installer.ts line 36). -/
def splitLinesRe : List Char → List Char → List String
  | [], acc => [String.mk acc.reverse]
  | '\r' :: '\n' :: rest, acc => String.mk acc.reverse :: splitLinesRe rest []
  | '\n' :: rest, acc => String.mk acc.reverse :: splitLinesRe rest []
  | c :: rest, acc => splitLinesRe rest (c :: acc)

/-- Lines of an `.npmrc` file. -/
def npmrcLines (content : String) : List String :=
  splitLinesRe content.data []

/-- An ECMAScript LineTerminator, which `.` (without the `s` flag) refuses
to match: LF, CR, LS, PS.  Lines produced by splitting on `/\r?\n/` cannot
contain LF, but can contain a bare CR (CR-only line endings) or LS/PS. -/
def isJsLineTerm (c : Char) : Bool :=
  c = '\n' ∨ c = '\r' ∨ c = '\u2028' ∨ c = '\u2029'

/-- `line.match(/^(.*?)=(.*)$/)` (installer.ts line 38): the pattern is
anchored to the whole input (`$` without the `m` flag asserts end of
input) and `.` excludes line terminators, so the match yields the split at
the first `=` exactly when the line contains an `=` and no line-terminator
character; otherwise it is `null`. -/
def parseNpmrcLine (line : String) : Option (String × String) :=
  if line.data.any isJsLineTerm then none
  else (splitAtChar '=' line.data).map (fun p => (String.mk p.1, String.mk p.2))

/-- The `.npmrc` loop of `registryUrl` (installer.ts lines 36-41): lines
without `=` are skipped (`indexOf('=') > -1` guard); for the rest, a null
match makes the destructuring `let [_, key, val] = ...` throw `TypeError`
(propagated as `none` — the surrounding catch handles it); a successful
match assigns `obj[key] = val`, later lines overwriting earlier bindings. -/
def npmrcLoop : List String → List (String × String) → Option (List (String × String))
  | [], obj => some obj
  | line :: rest, obj =>
    match splitAtChar '=' line.data with
    | none => npmrcLoop rest obj
    | some _ =>
      match parseNpmrcLine line with
      | some kv => npmrcLoop rest (aset obj kv.1 kv.2)
      | none => none

/-- The accumulated `obj` of `registryUrl`, or `none` when a line with an
`=` fails the regex and the loop throws. -/
def npmrcObj (content : String) : Option (List (String × String)) :=
  npmrcLoop (npmrcLines content) []

/-- JS truthiness of `obj[key]` for string values: defined and non-empty. -/
def getTruthy (obj : List (String × String)) (key : String) : Option String :=
  match alookup obj key with
  | some v => if v = "" then none else some v
  | none => none

/-- `res.endsWith('/') ? res : res + '/'`. -/
def addTrailingSlash (s : String) : String :=
  if endsWithChar s '/' then s else s ++ "/"

/-- `registryUrl` (installer.ts lines 27-52).  `npmrc` is the `.npmrc`
content when the file exists and is readable (a read failure, like the
`TypeError` thrown when a line fails the regex, is caught by the same
`try`/`catch` and keeps the default).  On a successful parse the scoped
override is consulted first, then the global `registry` key, both under JS
truthiness; a trailing slash is appended when the chosen value lacks one. -/
def registryUrl (npmrc : Option String) (scope : String) : String :=
  let dflt := "https://registry.npmjs.org/"
  let res :=
    match npmrc with
    | none => dflt
    | some content =>
      match npmrcObj content with
      | none => dflt
      | some obj =>
        match getTruthy obj (scope ++ ":registry") with
        | some v => v
        | none =>
          match getTruthy obj "registry" with
          | some v => v
          | none => dflt
  addTrailingSlash res

/-- Modelled from the spec: the parse the claim describes — every
`=`-containing line defines a key/value binding (the claim mentions no
failure path). -/
def npmrcObjClaimed (content : String) : List (String × String) :=
  (npmrcLines content).foldl
    (fun obj line =>
      match splitAtChar '=' line.data with
      | some p => aset obj (String.mk p.1) (String.mk p.2)
      | none => obj) []

/-- Modelled from the spec: the behaviour claim C9 ascribes to
`registryUrl`, in which an override is used whenever its key is *present*
in the parsed `.npmrc` (regardless of the value's truthiness).  Kept only
to compare with the source-derived `registryUrl`. -/
def registryUrlClaimed (npmrc : Option String) (scope : String) : String :=
  let dflt := "https://registry.npmjs.org/"
  let res :=
    match npmrc with
    | none => dflt
    | some content =>
      let obj := npmrcObjClaimed content
      match alookup obj (scope ++ ":registry") with
      | some v => v
      | none =>
        match alookup obj "registry" with
        | some v => v
        | none => dflt
  addTrailingSlash res

/-- Subscriptions owned by an id. -/
def subsAt (s : Registry) (id : String) : List Nat :=
  match alookup s.extensions id with
  | some c => c.subscriptions
  | none => []

/-- A loader whose entry points always resolve, with exports equal to the
execution count (so re-runs are observable). -/
def wEntryOk : String → Option (Nat → ActResult) := fun _ => some fun n => ActResult.ok n

/-- A loader whose entry points always reject. -/
def wEntryErr : String → Option (Nat → ActResult) := fun _ => some fun _ => ActResult.err "boom"

/-- A registry with one freshly loaded extension `x`. -/
def wFreshReg : Registry := { extensions := [("x", freshCell)], disabled := [] }

/-- A registry with one active extension `x`. -/
def wActiveReg : Registry :=
  { extensions := [("x", { result := some (ActResult.ok 0), isActive := true,
                           exports := some 0, subscriptions := [7], runCount := 1 })],
    disabled := [] }

/-- A registry where `x` is loaded but disabled. -/
def wDisabledReg : Registry := { extensions := [("x", freshCell)], disabled := ["x"] }

theorem alookup_aset {α β : Type} [DecidableEq α] (m : List (α × β)) (k : α) (v : β) :
    alookup (aset m k v) k = some v := by
  induction m with
  | nil => simp [aset, alookup]
  | cons p rest ih =>
    by_cases h : p.1 = k
    · simp [aset, alookup, h]
    · simp [aset, alookup, h, ih]

theorem aset_self {α β : Type} [DecidableEq α] {m : List (α × β)} {k : α} {v : β}
    (h : alookup m k = some v) : aset m k v = m := by
  induction m with
  | nil => simp [alookup] at h
  | cons p rest ih =>
    obtain ⟨a, b⟩ := p
    by_cases hp : a = k
    · subst hp
      simp [alookup] at h
      simp [aset, h]
    · simp [alookup, hp] at h
      simp [aset, hp, ih h]

theorem isDisabled_set (s : Registry) (e : List (String × ExtCell)) (id : String) :
    Extensions.isDisabled { s with extensions := e } id = Extensions.isDisabled s id := rfl

/-- C1: for every registered extension id, `activate(id)` is single-flight
and idempotent — running it a second time returns the very same outcome and
state (so concurrent or repeated callers observe one shared result), the
activation entry point executes at most once across the two calls, and an
already-active (non-disabled) extension yields immediate success with the
registry untouched. -/
theorem C1_activate_single_flight (f : String → Option (Nat → ActResult))
    (s : Registry) (id : String) :
    Extensions.activate f (Extensions.activate f s id).2 id = Extensions.activate f s id
    ∧ runCountAt (Extensions.activate f s id).2 id ≤ runCountAt s id + 1
    ∧ (Extensions.isDisabled s id = false → isActiveAt s id = true →
        Extensions.activate f s id = (ActivateResult.ret true, s)) := by
  cases hd : Extensions.isDisabled s id with
  | true =>
    have h1 : Extensions.activate f s id
        = (ActivateResult.thrown ("Extension " ++ id ++ " is disabled!"), s) := by
      simp [Extensions.activate, hd]
    refine ⟨?_, ?_, ?_⟩
    · rw [h1]; exact h1
    · rw [h1]; exact Nat.le_succ _
    · intro h2 _
      exact absurd h2 (by simp)
  | false =>
    have hd' : s.disabled.contains id = false := hd
    cases hl : alookup s.extensions id with
    | none =>
      have h1 : Extensions.activate f s id
          = (ActivateResult.thrown ("Extension " ++ id ++ " not registered!"), s) := by
        simp [Extensions.activate, hd, hl]
      refine ⟨?_, ?_, ?_⟩
      · rw [h1]; exact h1
      · rw [h1]; exact Nat.le_succ _
      · intro _ h2
        simp [isActiveAt, hl] at h2
    | some c =>
      cases ha : c.isActive with
      | true =>
        have h1 : Extensions.activate f s id = (ActivateResult.ret true, s) := by
          simp [Extensions.activate, hd, hl, ha]
        refine ⟨?_, ?_, ?_⟩
        · rw [h1]; exact h1
        · rw [h1]; exact Nat.le_succ _
        · intro _ _
          exact h1
      | false =>
        cases hr : c.result with
        | some r =>
          have hact : extensionActivate (f id) c = (some r, c) := by
            simp [extensionActivate, hr]
          have h1 : Extensions.activate f s id
              = ((match r with
                  | ActResult.err m => ActivateResult.thrown m
                  | ActResult.ok _ => ActivateResult.ret false), s) := by
            cases r with
            | ok e => simp [Extensions.activate, hd, hl, ha, hact, aset_self hl]
            | err m => simp [Extensions.activate, hd, hl, ha, hact, aset_self hl]
          refine ⟨?_, ?_, ?_⟩
          · rw [h1]; exact h1
          · rw [h1]; exact Nat.le_succ _
          · intro _ h2
            simp [isActiveAt, hl, ha] at h2
        | none =>
          cases hf : f id with
          | none =>
            have hact : extensionActivate (f id) c = (none, c) := by
              simp [extensionActivate, hr, hf]
            have h1 : Extensions.activate f s id = (ActivateResult.ret false, s) := by
              simp [Extensions.activate, hd, hl, ha, hact, aset_self hl]
            refine ⟨?_, ?_, ?_⟩
            · rw [h1]; exact h1
            · rw [h1]; exact Nat.le_succ _
            · intro _ h2
              simp [isActiveAt, hl, ha] at h2
          | some entry =>
            cases he : entry c.runCount with
            | ok e =>
              have hact : extensionActivate (f id) c
                  = (some (ActResult.ok e),
                     ({ c with result := some (ActResult.ok e), isActive := true,
                               exports := some e, runCount := c.runCount + 1 })) := by
                simp [extensionActivate, hr, hf, he]
              have h1 : Extensions.activate f s id
                  = (ActivateResult.ret true,
                     Registry.mk (aset s.extensions id ({ c with result := some (ActResult.ok e), isActive := true, exports := some e, runCount := c.runCount + 1 })) s.disabled) := by
                simp [Extensions.activate, hd, hl, ha, hact]
              refine ⟨?_, ?_, ?_⟩
              · rw [h1]
                have hmem : id ∉ s.disabled := by simpa using hd'
                simp [Extensions.activate, Extensions.isDisabled, hmem, alookup_aset]
              · rw [h1]
                simp [runCountAt, alookup_aset, hl]
              · intro _ h2
                simp [isActiveAt, hl, ha] at h2
            | err m =>
              have hact : extensionActivate (f id) c
                  = (some (ActResult.err m),
                     ({ c with result := some (ActResult.err m),
                               runCount := c.runCount + 1 })) := by
                simp [extensionActivate, hr, hf, he]
              have h1 : Extensions.activate f s id
                  = (ActivateResult.thrown m,
                     Registry.mk (aset s.extensions id ({ c with result := some (ActResult.err m), runCount := c.runCount + 1 })) s.disabled) := by
                simp [Extensions.activate, hd, hl, ha, hact]
              have hself : aset (aset s.extensions id
                    ({ c with result := some (ActResult.err m), runCount := c.runCount + 1 })) id
                    ({ c with result := some (ActResult.err m), runCount := c.runCount + 1 })
                  = aset s.extensions id
                    ({ c with result := some (ActResult.err m), runCount := c.runCount + 1 }) :=
                aset_self (alookup_aset s.extensions id _)
              refine ⟨?_, ?_, ?_⟩
              · rw [h1]
                have hmem : id ∉ s.disabled := by simpa using hd'
                simp only [ha] at hself
                simp [Extensions.activate, Extensions.isDisabled, hmem, alookup_aset, ha,
                  extensionActivate, hself]
              · rw [h1]
                simp [runCountAt, alookup_aset, hl]
              · intro _ h2
                simp [isActiveAt, hl, ha] at h2

/-- C1 witness: an already-active extension re-activates to immediate
success with the registry unchanged. -/
theorem C1_witness :
    Extensions.activate wEntryOk wActiveReg "x" = (ActivateResult.ret true, wActiveReg) :=
  (C1_activate_single_flight wEntryOk wActiveReg "x").2.2 (by decide) (by decide)

/-- C2: for a disabled id, `activate(id)` rejects with the disabled error
and leaves the registry untouched — the active flag and the entry-point
execution count are unchanged — and the activation-event router skips the
id entirely, so no activation entry point can be invoked for it. -/
theorem C2_disabled_never_activates (f : String → Option (Nat → ActResult))
    (s : Registry) (id : String) (evs : Option (List String))
    (hd : Extensions.isDisabled s id = true) :
    Extensions.activate f s id
        = (ActivateResult.thrown ("Extension " ++ id ++ " is disabled!"), s)
    ∧ isActiveAt (Extensions.activate f s id).2 id = isActiveAt s id
    ∧ runCountAt (Extensions.activate f s id).2 id = runCountAt s id
    ∧ Extensions.setupActiveEvents f s id evs = (SetupAction.skipped, s) := by
  have h1 : Extensions.activate f s id
      = (ActivateResult.thrown ("Extension " ++ id ++ " is disabled!"), s) := by
    simp [Extensions.activate, hd]
  have hc : s.disabled.contains id = true := hd
  have hmem : id ∈ s.disabled := by simpa using hc
  have hca : Extensions.canActivate s id = false := by
    simp [Extensions.canActivate, hmem]
  refine ⟨h1, by rw [h1], by rw [h1], ?_⟩
  unfold Extensions.setupActiveEvents
  rw [hca]
  simp

/-- C2 witness: a concrete disabled extension. -/
theorem C2_witness :
    Extensions.activate wEntryOk wDisabledReg "x"
        = (ActivateResult.thrown ("Extension " ++ "x" ++ " is disabled!"), wDisabledReg)
    ∧ Extensions.setupActiveEvents wEntryOk wDisabledReg "x" none
        = (SetupAction.skipped, wDisabledReg) :=
  ⟨(C2_disabled_never_activates wEntryOk wDisabledReg "x" none (by decide)).1,
   (C2_disabled_never_activates wEntryOk wDisabledReg "x" none (by decide)).2.2.2⟩

/-- C3: deactivating an active extension clears the cached activation
promise, the cached exports and the active flag and releases all owned
subscriptions; the following `activate(id)` therefore runs the entry point
again (the execution count increments) and the exports cached afterwards
are exactly those produced by the fresh run. -/
theorem C3_deactivate_then_activate_reruns (f : String → Option (Nat → ActResult))
    (s : Registry) (id : String) (c : ExtCell) (entry : Nat → ActResult)
    (hd : Extensions.isDisabled s id = false)
    (hl : alookup s.extensions id = some c)
    (ha : c.isActive = true)
    (hf : f id = some entry) :
    (Extensions.deactivate s id).1 = true
    ∧ resultAt (Extensions.deactivate s id).2 id = none
    ∧ exportsAt (Extensions.deactivate s id).2 id = none
    ∧ isActiveAt (Extensions.deactivate s id).2 id = false
    ∧ subsAt (Extensions.deactivate s id).2 id = []
    ∧ runCountAt (Extensions.activate f (Extensions.deactivate s id).2 id).2 id = c.runCount + 1
    ∧ (Extensions.activate f (Extensions.deactivate s id).2 id).1
        = (match entry c.runCount with
           | ActResult.ok _ => ActivateResult.ret true
           | ActResult.err m => ActivateResult.thrown m)
    ∧ exportsAt (Extensions.activate f (Extensions.deactivate s id).2 id).2 id
        = (match entry c.runCount with
           | ActResult.ok e => some e
           | ActResult.err _ => none) := by
  have hcd : extensionDeactivate c
      = ({ c with result := none, exports := none, isActive := false, subscriptions := [] }) := by
    simp [extensionDeactivate, ha]
  have hde : Extensions.deactivate s id
      = (true, Registry.mk (aset s.extensions id ({ c with result := none, exports := none, isActive := false, subscriptions := [] })) s.disabled) := by
    simp [Extensions.deactivate, hl, hcd]
  have hmem : id ∉ s.disabled := by
    have hc : s.disabled.contains id = false := hd
    simpa using hc
  refine ⟨by rw [hde], ?_, ?_, ?_, ?_, ?_, ?_, ?_⟩
  · rw [hde]; simp [resultAt, alookup_aset]
  · rw [hde]; simp [exportsAt, alookup_aset]
  · rw [hde]; simp [isActiveAt, alookup_aset]
  · rw [hde]; simp [subsAt, alookup_aset]
  all_goals
    rw [hde]
    cases he : entry c.runCount with
    | ok e =>
      simp [Extensions.activate, Extensions.isDisabled, hmem, alookup_aset, extensionActivate,
        hf, he, runCountAt, exportsAt]
    | err m =>
      simp [Extensions.activate, Extensions.isDisabled, hmem, alookup_aset, extensionActivate,
        hf, he, runCountAt, exportsAt]

/-- C3 witness: a concrete active extension; after deactivate + activate
the entry point has run twice and the exports are those of the second run
(`wEntryOk` returns the run index, so they changed identity from 0 to 1). -/
theorem C3_witness :
    resultAt (Extensions.deactivate wActiveReg "x").2 "x" = none
    ∧ subsAt (Extensions.deactivate wActiveReg "x").2 "x" = []
    ∧ runCountAt (Extensions.activate wEntryOk (Extensions.deactivate wActiveReg "x").2 "x").2 "x"
        = 2
    ∧ exportsAt (Extensions.activate wEntryOk (Extensions.deactivate wActiveReg "x").2 "x").2 "x"
        = some 1 := by
  have h := C3_deactivate_then_activate_reruns wEntryOk wActiveReg "x"
    { result := some (ActResult.ok 0), isActive := true,
      exports := some 0, subscriptions := [7], runCount := 1 }
    (fun n => ActResult.ok n) (by decide) (by decide) (by decide) rfl
  exact ⟨h.2.1, h.2.2.2.2.1, h.2.2.2.2.2.1, h.2.2.2.2.2.2.2⟩

/-- C4: when the on-disk installed version is `semver.gte` the version the
registry resolved, `Installer.update` returns `undefined` and does not
invoke `doInstall` — and since everything `update` itself does before
`doInstall` is a read, no filesystem mutation is performed. -/
theorem C4_update_noop_when_current (root : String) (folderIsLink : Bool)
    (v latest : SemVer) (info : Info) (sat : String → Bool)
    (doInstallRes : Except String Bool)
    (hv : info.version = some latest)
    (hge : SemVer.gte v latest = true) :
    Installer.update root folderIsLink (some v) (Except.ok info) sat doInstallRes
      = { result := Except.ok none, didInstall := false } := by
  cases folderIsLink with
  | true => simp [Installer.update]
  | false => simp [Installer.update, hv, hge]

/-- C4 witness: version 1.2.0 installed, registry resolves 1.2.0. -/
theorem C4_witness :
    Installer.update "root" false (some ⟨1, 2, 0⟩)
      (Except.ok { tarball := "t", enginesCoc := some "^0.0.80",
                   version := some ⟨1, 2, 0⟩, name := "demo-ext" })
      (fun _ => true) (Except.ok true)
      = { result := Except.ok none, didInstall := false } :=
  C4_update_noop_when_current "root" false ⟨1, 2, 0⟩ ⟨1, 2, 0⟩
    { tarball := "t", enginesCoc := some "^0.0.80",
      version := some ⟨1, 2, 0⟩, name := "demo-ext" }
    (fun _ => true) (Except.ok true) (by decide) (by decide)

/-- C5: a symlinked install directory is immutable to the installer:
`update` returns `undefined` without invoking `doInstall`, and `doInstall`
itself returns `false` with an empty filesystem-effect trace — nothing is
downloaded, removed, moved or written. -/
theorem C5_symlink_never_touched (root npm : String)
    (installedVersion : Option SemVer) (infoRes : Except String Info)
    (sat : String → Bool) (doInstallRes : Except String Bool)
    (url? : Option String) (info : Info) (tmp : String)
    (rawDeps : List (String × String)) (exitCode : Nat)
    (priorDeps : List (String × String)) (targetStat : Option Bool) :
    Installer.update root true installedVersion infoRes sat doInstallRes
      = { result := Except.ok none, didInstall := false }
    ∧ Installer.doInstall root npm url? info true tmp rawDeps exitCode priorDeps targetStat
      = (Except.ok false, []) :=
  ⟨by simp [Installer.update], by simp [Installer.doInstall]⟩

/-- C6 counterexample: a URL-based resolution whose fetched manifest
declares no `engines.coc` range succeeds (returns the info with a null
engine range) instead of failing with a hard error, contradicting the
claim that every resolution path requires the declaration. -/
theorem C6_counterexample :
    Installer.getInfo (some "https://github.com/a/b")
        { name := "x", version := none, enginesCoc := none }
        { name := "x", latest := ⟨0, 0, 0⟩, versions := [] } none "x"
      = Except.ok { tarball := "https://github.com/a/b/archive/master.tar.gz",
                    enginesCoc := none, version := none, name := "x" } := by
  decide

/-- C6 amended: only the registry resolution path of `Installer.getInfo`
hard-fails when the resolved manifest declares no `engines.coc` range; the
URL-based (github) path returns the info with a null engine range instead
of failing. -/
theorem C6_engines_required_registry_only (resp : RegistryResp) (version? : Option SemVer)
    (github : GithubPkg) (defName url : String) (pkg : RegistryPkg)
    (hlook : alookup resp.versions (version?.getD resp.latest) = some pkg)
    (hnoeng : pkg.enginesCoc = none)
    (hurl : strStarts "https://github.com" url = true)
    (hgh : github.enginesCoc = none) :
    Installer.getInfo none github resp version? defName
      = Except.error
          (defName ++ " is not valid coc extension, \"engines\" field with coc property required.")
    ∧ ∃ i, Installer.getInfo (some url) github resp version? defName = Except.ok i
        ∧ i.enginesCoc = none := by
  constructor
  · simp [Installer.getInfo, Installer.getInfoRegistry, hlook, hnoeng]
  · have hne : ¬ (strStarts "https://github.com" url = false) := by simp [hurl]
    have hstep : Installer.getInfo (some url) github resp version? defName
        = Installer.getInfoFromUri url github := rfl
    rw [hstep]
    unfold Installer.getInfoFromUri
    rw [if_neg hne]
    exact ⟨_, rfl, hgh⟩

/-- C6 amended witness: a concrete registry package without `engines.coc`
is rejected, while a github manifest without it is accepted. -/
theorem C6_witness :
    Installer.getInfo none { name := "x", version := none, enginesCoc := none }
        { name := "p", latest := ⟨1, 0, 0⟩,
          versions := [(⟨1, 0, 0⟩, { tarball := "t", enginesCoc := none, version := ⟨1, 0, 0⟩ })] }
        none "p"
      = Except.error
          ("p" ++ " is not valid coc extension, \"engines\" field with coc property required.") :=
  (C6_engines_required_registry_only
    { name := "p", latest := ⟨1, 0, 0⟩,
      versions := [(⟨1, 0, 0⟩, { tarball := "t", enginesCoc := none, version := ⟨1, 0, 0⟩ })] }
    none { name := "x", version := none, enginesCoc := none } "p" "https://github.com/a/b"
    { tarball := "t", enginesCoc := none, version := ⟨1, 0, 0⟩ }
    (by decide) (by decide) (by decide) (by decide)).1

/-- C7 counterexample: an extension declaring a present-but-empty
activation-event list is not activated at registration time — the router
enters the trigger-registration branch with zero events (a JS empty array
is truthy) and the registry is left untouched, with the extension inactive,
even though activation would succeed if attempted. -/
theorem C7_counterexample :
    Extensions.setupActiveEvents wEntryOk wFreshReg "x" (some [])
        = (SetupAction.triggers [], wFreshReg)
    ∧ isActiveAt wFreshReg "x" = false
    ∧ (Extensions.activate wEntryOk wFreshReg "x").1 = ActivateResult.ret true := by
  decide

/-- C7 amended: a *missing* activation-event list (JS `undefined`), or a
list containing the literal wildcard entry, makes the router activate the
extension immediately at registration time; a present-but-empty list
instead registers no triggers and does not activate. -/
theorem C7_immediate_on_missing_or_wildcard (f : String → Option (Nat → ActResult))
    (s : Registry) (id : String) (evs? : Option (List String))
    (hcan : Extensions.canActivate s id = true)
    (hev : evs? = none ∨ (evs?.getD []).contains "*" = true) :
    Extensions.setupActiveEvents f s id evs?
      = (SetupAction.immediate, (Extensions.activate f s id).2) := by
  have hcond : (evs?.isNone || (evs?.getD []).contains "*") = true := by
    cases hev with
    | inl h => simp [h]
    | inr h =>
      have h2 : "*" ∈ evs?.getD [] := by simpa using h
      simp [h2]
  unfold Extensions.setupActiveEvents
  rw [hcan, hcond]
  simp

/-- C7 amended witness: wildcard and missing lists activate immediately. -/
theorem C7_witness :
    Extensions.setupActiveEvents wEntryOk wFreshReg "x" (some ["*"])
        = (SetupAction.immediate, (Extensions.activate wEntryOk wFreshReg "x").2)
    ∧ Extensions.setupActiveEvents wEntryOk wFreshReg "x" none
        = (SetupAction.immediate, (Extensions.activate wEntryOk wFreshReg "x").2) :=
  ⟨C7_immediate_on_missing_or_wildcard wEntryOk wFreshReg "x" (some ["*"]) (by decide)
      (Or.inr (by decide)),
   C7_immediate_on_missing_or_wildcard wEntryOk wFreshReg "x" none (by decide)
      (Or.inl rfl)⟩

theorem sortDeps_keys_sorted (deps : List (String × String)) :
    ((sortDeps deps).map Prod.fst).Sorted (· ≤ ·) := by
  unfold sortDeps
  have hs : (List.insertionSort (· ≤ ·) (deps.map Prod.fst)).Sorted (· ≤ ·) :=
    List.sorted_insertionSort _ _
  have hp : ((List.insertionSort (· ≤ ·) (deps.map Prod.fst)).filterMap
      (fun k => (alookup deps k).map (fun v => (k, v)))).Pairwise
      (fun p q : String × String => p.1 ≤ q.1) := by
    refine List.Pairwise.filterMap _ ?_ hs
    intro a b hle x hx y hy
    rw [Option.mem_def, Option.map_eq_some'] at hx hy
    obtain ⟨v, hv, rfl⟩ := hx
    obtain ⟨w, hw, rfl⟩ := hy
    simpa using hle
  exact hp.map Prod.fst (fun a b h => h)

/-- C8: in the combined system, a step either leaves the root dependency
manifest untouched or is one of the two manifest writers — `doInstall`
(install/update) or `uninstall` — and in that case the freshly written
manifest has its dependency keys in sorted order. -/
theorem C8_manifest_writes_sorted (f : String → Option (Nat → ActResult))
    (root npm : String) (st : SystemState) (op : Op) :
    (step f root npm st op).manifest = st.manifest
    ∨ (manifestWriter op = true
        ∧ ((step f root npm st op).manifest.map Prod.fst).Sorted (· ≤ ·)) := by
  cases op with
  | activateOp id => exact Or.inl rfl
  | deactivateOp id => exact Or.inl rfl
  | setupOp id evs => exact Or.inl rfl
  | doInstallOp url? info link tmp rawDeps exitCode targetStat =>
    have hsorted := sortDeps_keys_sorted (aset st.manifest info.name
      (match url? with | some u => u | none => ">=" ++ versionText info.version))
    cases link with
    | true => exact Or.inl (by simp [step, Installer.doInstall, applyWrites])
    | false =>
      cases he : (getDependencies rawDeps).isEmpty with
      | false =>
        by_cases he0 : exitCode = 0
        · refine Or.inr ⟨rfl, ?_⟩
          cases targetStat with
          | none => simpa [step, Installer.doInstall, he, he0, applyWrites] using hsorted
          | some b => simpa [step, Installer.doInstall, he, he0, applyWrites] using hsorted
        · exact Or.inl (by simp [step, Installer.doInstall, he, he0, applyWrites])
      | true =>
        refine Or.inr ⟨rfl, ?_⟩
        cases targetStat with
        | none => simpa [step, Installer.doInstall, he, applyWrites] using hsorted
        | some b => simpa [step, Installer.doInstall, he, applyWrites] using hsorted
  | uninstallOp ids =>
    cases ids with
    | nil => exact Or.inl (by simp [step, Extensions.uninstallExtension])
    | cons a rest =>
      refine Or.inr ⟨rfl, ?_⟩
      have h := sortDeps_keys_sorted (((a :: rest).filter
        (fun id => (st.manifest.map Prod.fst).contains id)).foldl
          (fun d id => adel d id) st.manifest)
      simpa [step, Extensions.uninstallExtension] using h

theorem addTrailingSlash_ends (s : String) : endsWithChar (addTrailingSlash s) '/' = true := by
  unfold addTrailingSlash
  cases h : endsWithChar s '/' with
  | true => simp [h]
  | false =>
    simp only [h, Bool.false_eq_true, if_false]
    have hd : ("/" : String).data = ['/'] := rfl
    have hlast : (s.data ++ ['/']).getLast? = some '/' := List.getLast?_concat _
    simp [endsWithChar, String.data_append, hd, hlast]

/-- C9 counterexample: an `.npmrc` consisting of the single line
`registry=` *has* a global `registry` override (with an empty value), yet
`registryUrl` ignores it and returns the default, where the claim's reading
(use the override whenever the key is present, slash appended) would
produce `"/"`. -/
theorem C9_counterexample :
    registryUrl (some "registry=") "coc.nvim" = "https://registry.npmjs.org/"
    ∧ npmrcObj "registry=" = some [("registry", "")]
    ∧ registryUrlClaimed (some "registry=") "coc.nvim" = "/"
    ∧ registryUrl (some "registry=") "coc.nvim"
        ≠ registryUrlClaimed (some "registry=") "coc.nvim" := by
  decide

/-- C9 amended: `registryUrl` always returns a string ending in `/`; when
the `.npmrc` parses (no `=`-containing line holds a line-terminator
character, which would null the anchored match and make the destructuring
throw), it uses the scoped `coc.nvim:registry` override if present with a
non-empty (truthy) value, else the global `registry` override if present
with a non-empty value, else the default registry; a missing or unreadable
`.npmrc`, or one whose parse throws, yields the default; a trailing slash
is appended whenever the chosen value lacks one. -/
theorem C9_registry_url_behaviour (content v : String) (obj : List (String × String)) :
    registryUrl none "coc.nvim" = "https://registry.npmjs.org/"
    ∧ endsWithChar (registryUrl (some content) "coc.nvim") '/' = true
    ∧ (npmrcObj content = none →
        registryUrl (some content) "coc.nvim" = "https://registry.npmjs.org/")
    ∧ (npmrcObj content = some obj →
        getTruthy obj "coc.nvim:registry" = some v →
        registryUrl (some content) "coc.nvim" = addTrailingSlash v)
    ∧ (npmrcObj content = some obj →
        getTruthy obj "coc.nvim:registry" = none →
        getTruthy obj "registry" = some v →
        registryUrl (some content) "coc.nvim" = addTrailingSlash v)
    ∧ (npmrcObj content = some obj →
        getTruthy obj "coc.nvim:registry" = none →
        getTruthy obj "registry" = none →
        registryUrl (some content) "coc.nvim" = "https://registry.npmjs.org/") := by
  refine ⟨by decide, addTrailingSlash_ends _, ?_, ?_, ?_, ?_⟩
  · intro h
    have hstep : registryUrl (some content) "coc.nvim"
        = addTrailingSlash "https://registry.npmjs.org/" := by
      simp [registryUrl, h]
    rw [hstep]
    decide
  · intro hobj h
    simp [registryUrl, hobj, h]
  · intro hobj h1 h2
    simp [registryUrl, hobj, h1, h2]
  · intro hobj h1 h2
    have hstep : registryUrl (some content) "coc.nvim"
        = addTrailingSlash "https://registry.npmjs.org/" := by
      simp [registryUrl, hobj, h1, h2]
    rw [hstep]
    decide

/-- C9 amended witness: a scoped override without a trailing slash gets one
appended, and a CR inside an `=`-containing line nulls the regex match, so
the thrown `TypeError` is caught and the default is returned even though
the line names a `registry` override. -/
theorem C9_witness :
    registryUrl (some "coc.nvim:registry=https://r.example") "coc.nvim"
      = addTrailingSlash "https://r.example"
    ∧ registryUrl (some "registry=https://r.example\rx=y") "coc.nvim"
      = "https://registry.npmjs.org/" :=
  ⟨(C9_registry_url_behaviour "coc.nvim:registry=https://r.example"
      "https://r.example" [("coc.nvim:registry", "https://r.example")]).2.2.2.1
      (by decide) (by decide),
   (C9_registry_url_behaviour "registry=https://r.example\rx=y" "" []).2.2.1 (by decide)⟩

/-- C10 counterexample: after an activation whose entry point rejects, the
rejected promise stays cached and every later `activate` returns the same
rejection without re-running the entry point — but `deactivate` does *not*
clear the cached promise as the claim states: it runs (returns `true`),
yet the cached rejection survives it and the entry point still does not
run again afterwards. -/
theorem C10_counterexample :
    (Extensions.activate wEntryErr wFreshReg "x").1 = ActivateResult.thrown "boom"
    ∧ (Extensions.deactivate (Extensions.activate wEntryErr wFreshReg "x").2 "x").1 = true
    ∧ resultAt (Extensions.deactivate (Extensions.activate wEntryErr wFreshReg "x").2 "x").2 "x"
        = some (ActResult.err "boom")
    ∧ (Extensions.activate wEntryErr
        (Extensions.deactivate (Extensions.activate wEntryErr wFreshReg "x").2 "x").2 "x").1
        = ActivateResult.thrown "boom"
    ∧ runCountAt (Extensions.activate wEntryErr
        (Extensions.deactivate (Extensions.activate wEntryErr wFreshReg "x").2 "x").2 "x").2 "x"
        = 1 := by
  decide

/-- C10 amended: a failed activation is cached like a successful one —
after an `activate(id)` whose entry point rejects, the rejected promise is
cached, and every subsequent `activate(id)` returns the same rejection
without invoking the entry point again; `deactivate(id)` does *not* clear
the cached promise (it no-ops because the extension is not active), so the
rejection persists until the record is unloaded and recreated. -/
theorem C10_failed_activation_cached (f : String → Option (Nat → ActResult))
    (s : Registry) (id : String) (c : ExtCell) (entry : Nat → ActResult) (m : String)
    (hd : Extensions.isDisabled s id = false)
    (hl : alookup s.extensions id = some c)
    (ha : c.isActive = false)
    (hr : c.result = none)
    (hf : f id = some entry)
    (he : entry c.runCount = ActResult.err m) :
    (Extensions.activate f s id).1 = ActivateResult.thrown m
    ∧ resultAt (Extensions.activate f s id).2 id = some (ActResult.err m)
    ∧ runCountAt (Extensions.activate f s id).2 id = c.runCount + 1
    ∧ Extensions.deactivate (Extensions.activate f s id).2 id
        = (true, (Extensions.activate f s id).2)
    ∧ Extensions.activate f (Extensions.activate f s id).2 id
        = (ActivateResult.thrown m, (Extensions.activate f s id).2) := by
  have hd' : s.disabled.contains id = false := hd
  have hmem : id ∉ s.disabled := by simpa using hd'
  have hact : extensionActivate (f id) c
      = (some (ActResult.err m),
         ({ c with result := some (ActResult.err m), runCount := c.runCount + 1 })) := by
    simp [extensionActivate, hr, hf, he]
  have h1 : Extensions.activate f s id
      = (ActivateResult.thrown m,
         Registry.mk (aset s.extensions id ({ c with result := some (ActResult.err m), runCount := c.runCount + 1 })) s.disabled) := by
    simp [Extensions.activate, hd, hl, ha, hact]
  have hself : aset (aset s.extensions id
        ({ c with result := some (ActResult.err m), runCount := c.runCount + 1 })) id
        ({ c with result := some (ActResult.err m), runCount := c.runCount + 1 })
      = aset s.extensions id
        ({ c with result := some (ActResult.err m), runCount := c.runCount + 1 }) :=
    aset_self (alookup_aset s.extensions id _)
  refine ⟨by rw [h1], ?_, ?_, ?_, ?_⟩
  · rw [h1]
    simp [resultAt, alookup_aset]
  · rw [h1]
    simp [runCountAt, alookup_aset]
  · rw [h1]
    simp only [ha] at hself
    simp [Extensions.deactivate, alookup_aset, extensionDeactivate, ha, hself]
  · rw [h1]
    simp only [ha] at hself
    simp [Extensions.activate, Extensions.isDisabled, hmem, alookup_aset, ha,
      extensionActivate, hself]

/-- C10 amended witness: the cached rejection survives `deactivate`. -/
theorem C10_witness :
    Extensions.deactivate (Extensions.activate wEntryErr wFreshReg "x").2 "x"
      = (true, (Extensions.activate wEntryErr wFreshReg "x").2) :=
  (C10_failed_activation_cached wEntryErr wFreshReg "x" freshCell
    (fun _ => ActResult.err "boom") "boom"
    (by decide) (by decide) rfl rfl rfl rfl).2.2.2.1
